import Mathlib

/-!
Verification of the analytics aggregation engine of `amp-wrapped`
(the usage collector in `collector.ts` and the stats calculator in `stats.ts`).

Shallow-embedding conventions:
* JS numbers that take part in division are embedded as `ℚ`; counters that are
  only ever incremented are `Nat`; epoch-millisecond timestamps are `Int`.
* The `YYYY-MM-DD` date-key strings produced by `formatDateKey` are embedded as
  the structure `DateKey` (4-digit year, zero-padded month/day, so string order
  and lexicographic order on the fields agree, and `startsWith(String(year))`
  agrees with equality of the year field).
* JS `Map`s are association lists in insertion order (JS `Map` preserves
  insertion order and `set` on an existing key keeps its position); JS `Set`s
  are duplicate-free lists in insertion order.
* The ambient local timezone is modelled as a fixed zero offset, so the local
  calendar date of an epoch-millisecond timestamp `ms` is the civil date of the
  day number `⌊ms / 86400000⌋`.
-/

namespace AmpWrapped

/-- Calendar date: the embedding of a `YYYY-MM-DD` date-key string. -/
structure DateKey where
  y : Nat
  m : Nat
  d : Nat
deriving DecidableEq, Repr, Inhabited

/-- Days since 1970-01-01 of a civil (proleptic Gregorian) date.  This is the
embedding of `new Date("YYYY-MM-DD").getTime() / 86400000` (a date-only string
is parsed as UTC midnight).  Uses the standard era-based algorithm; the
truncating division `Int.tdiv` matches the reference formulation, whose
operands are arranged to be non-negative after the era shift. -/
def daysFromCivil (dk : DateKey) : Int :=
  let y : Int := if dk.m ≤ 2 then (dk.y : Int) - 1 else (dk.y : Int)
  let era : Int := (if 0 ≤ y then y else y - 399).tdiv 400
  let yoe : Int := y - era * 400
  let mp : Int := if 2 < (dk.m : Int) then (dk.m : Int) - 3 else (dk.m : Int) + 9
  let doy : Int := (153 * mp + 2).tdiv 5 + (dk.d : Int) - 1
  let doe : Int := yoe * 365 + yoe.tdiv 4 - yoe.tdiv 100 + doy
  era * 146097 + doe - 719468

/-- Civil date of a day number (days since 1970-01-01): the embedding of
`getFullYear`/`getMonth`/`getDate` of a `Date` holding that day (timezone
modelled as offset zero). -/
def civilFromDays (z0 : Int) : DateKey :=
  let z : Int := z0 + 719468
  let era : Int := (if 0 ≤ z then z else z - 146096).tdiv 146097
  let doe : Int := z - era * 146097
  let yoe : Int := (doe - doe.tdiv 1460 + doe.tdiv 36524 - doe.tdiv 146096).tdiv 365
  let y : Int := yoe + era * 400
  let doy : Int := doe - (365 * yoe + yoe.tdiv 4 - yoe.tdiv 100)
  let mp : Int := (5 * doy + 2).tdiv 153
  let d : Int := doy - (153 * mp + 2).tdiv 5 + 1
  let m : Int := mp + (if mp < 10 then 3 else -9)
  let yr : Int := y + (if m ≤ 2 then 1 else 0)
  ⟨yr.toNat, m.toNat, d.toNat⟩

/-- Milliseconds per day. -/
def msPerDay : Int := 86400000

/-- Day number (days since the epoch) of an epoch-millisecond timestamp;
floor division, as in the `Date` calendar conversion. -/
def msDay (ms : Int) : Int := Int.fdiv ms msPerDay

/-- Embedding of `formatDateKey(new Date(ms))`: the (model-local) calendar
date of an epoch-millisecond timestamp. -/
def dateOfMs (ms : Int) : DateKey := civilFromDays (msDay ms)

/-- Embedding of `Date.prototype.getDay` for a date key: 0 = Sunday .. 6 =
Saturday (1970-01-01 was a Thursday, weekday 4). -/
def getDayOfWeek (dk : DateKey) : Nat := ((daysFromCivil dk + 4).emod 7).toNat

/-! ### Association-list embeddings of JS `Map` and `Set` -/

/-- Embedding of `m.set(k, (m.get(k) || 0) + x)`: add `x` to the entry of `k`,
keeping its position, or append a fresh entry at the end. -/
def mapAdd {κ : Type} [DecidableEq κ] : List (κ × ℚ) → κ → ℚ → List (κ × ℚ)
  | [], k, x => [(k, x)]
  | (k', v) :: rest, k, x =>
      if k' = k then (k', v + x) :: rest else (k', v) :: mapAdd rest k x

/-- Embedding of `m.get(k)`. -/
def mapGet {κ ν : Type} [DecidableEq κ] : List (κ × ν) → κ → Option ν
  | [], _ => none
  | (k', v) :: rest, k => if k' = k then some v else mapGet rest k

/-- Embedding of `m.has(k)`. -/
def mapHas {κ ν : Type} [DecidableEq κ] (m : List (κ × ν)) (k : κ) : Bool :=
  (mapGet m k).isSome

/-- Embedding of `s.add(k)` on a JS `Set`. -/
def setAdd {κ : Type} [DecidableEq κ] (s : List κ) (k : κ) : List κ :=
  if k ∈ s then s else s ++ [k]

/-! ### Character-list embeddings of the JS string operations used -/

/-- Boolean test that `hay` begins with `needle` (JS `startsWith`, on the
character level; all strings involved are ASCII). -/
def listStarts : List Char → List Char → Bool
  | _, [] => true
  | [], _ :: _ => false
  | c :: cs, p :: ps => c = p && listStarts cs ps

/-- Embedding of `hay.indexOf(needle)`: position of the leftmost occurrence of
`needle` in `hay`, or `none`. -/
def listIdxOf : List Char → List Char → Option Nat
  | [], needle => if needle = [] then some 0 else none
  | c :: t, needle =>
      if listStarts (c :: t) needle then some 0
      else (listIdxOf t needle).map (· + 1)

/-- Embedding of `s.startsWith(p)`. -/
def strStarts (s p : String) : Bool := listStarts s.toList p.toList

/-- Embedding of `s.includes(sub)`. -/
def strHas (s sub : String) : Bool := (listIdxOf s.toList sub.toList).isSome

/-! ### Collector (`collector.ts`) data model

The file system and JSON layer are external to the engine: the input is the
stream of successfully parsed thread records (malformed files are skipped
before they reach the aggregation, and a missing directory yields the empty
stream).  The unused `id` and `v` fields of a thread are omitted. -/

inductive Role where
  | user
  | assistant
deriving DecidableEq, Repr

structure AmpThreadUsage where
  model : String
  inputTokens : ℚ
  outputTokens : ℚ
  cacheReadInputTokens : Option ℚ
  credits : ℚ
deriving DecidableEq, Repr

structure AmpMessage where
  role : Role
  usage : Option AmpThreadUsage
  /-- The URIs of `fileMentions?.files` (absent mentions are the empty list,
  over which the collector's loop is a no-op, as in the source). -/
  fileMentionFiles : List String
deriving DecidableEq, Repr

structure AmpThread where
  /-- Creation timestamp, epoch milliseconds. -/
  created : Int
  messages : List AmpMessage
deriving DecidableEq, Repr

structure AmpUsageSummary where
  totalInputTokens : ℚ
  totalOutputTokens : ℚ
  totalCacheReadTokens : ℚ
  totalTokens : ℚ
  totalCredits : ℚ
  modelTokenTotals : List (String × ℚ)
  modelCreditTotals : List (String × ℚ)
  firstTimestamp : Option Int
  dailyActivity : List (DateKey × ℚ)
  totalMessages : Nat
  totalSessions : Nat
  projects : List String
deriving DecidableEq, Repr

def emptySummary : AmpUsageSummary :=
  { totalInputTokens := 0
    totalOutputTokens := 0
    totalCacheReadTokens := 0
    totalTokens := 0
    totalCredits := 0
    modelTokenTotals := []
    modelCreditTotals := []
    firstTimestamp := none
    dailyActivity := []
    totalMessages := 0
    totalSessions := 0
    projects := [] }

/-- The fixed list of project indicators of `extractProjectPath`, in source
order. -/
def projectIndicators : List String :=
  ["/src/", "/lib/", "/app/", "/components/", "/pages/"]

/-- The indicator loop of `extractProjectPath`: try each indicator in list
order and return the index of the first one that occurs anywhere in `path`. -/
def findIndicator (path : List Char) : List String → Option Nat
  | [] => none
  | ind :: rest =>
      match listIdxOf path ind.toList with
      | some i => some i
      | none => findIndicator path rest

/-- Embedding of `extractProjectPath`.  `uri.replace("file://", "")` removes
the first occurrence of the scheme, which under the `startsWith` guard is the
7-character head of the string. -/
def extractProjectPath (uri : String) : Option String :=
  if strStarts uri "file://" then
    let path : List Char := uri.toList.drop 7
    match findIndicator path projectIndicators with
    | some idx => some (String.mk (path.take idx))
    | none =>
        let parts := (String.mk path).splitOn "/"
        if 4 ≤ parts.length then some (String.intercalate "/" parts.dropLast)
        else none
  else none

/-- One message of a retained thread, as processed by the collector's inner
loop.  `usage.inputTokens || 0` and friends are the identity on numbers; the
`|| 0` on the optional `cacheReadInputTokens` is `Option.getD 0`; `usage.model
|| "unknown"` maps the empty string to `"unknown"`. -/
def processMessage (s : AmpUsageSummary) (message : AmpMessage) : AmpUsageSummary :=
  let s1 :=
    if message.role = Role.user then
      { s with
        totalMessages := s.totalMessages + 1
        projects := message.fileMentionFiles.foldl
          (fun ps uri =>
            match extractProjectPath uri with
            | some projectPath => setAdd ps projectPath
            | none => ps)
          s.projects }
    else s
  match message.role, message.usage with
  | Role.assistant, some usage =>
      let model := if usage.model = "" then "unknown" else usage.model
      let input := usage.inputTokens
      let output := usage.outputTokens
      let cacheRead := usage.cacheReadInputTokens.getD 0
      let credits := usage.credits
      let entryTotal := input + output + cacheRead
      { s1 with
        totalInputTokens := s1.totalInputTokens + input
        totalOutputTokens := s1.totalOutputTokens + output
        totalCacheReadTokens := s1.totalCacheReadTokens + cacheRead
        totalTokens := s1.totalTokens + entryTotal
        totalCredits := s1.totalCredits + credits
        modelTokenTotals :=
          if model ≠ "unknown" then mapAdd s1.modelTokenTotals model entryTotal
          else s1.modelTokenTotals
        modelCreditTotals :=
          if model ≠ "unknown" then mapAdd s1.modelCreditTotals model credits
          else s1.modelCreditTotals }
  | _, _ => s1

/-- One thread of the collector's outer loop: skip it entirely unless its
creation date falls in the requested year, otherwise count the session, track
the earliest creation time, count the day and process the messages. -/
def processThread (year : Nat) (s : AmpUsageSummary) (t : AmpThread) : AmpUsageSummary :=
  if (dateOfMs t.created).y ≠ year then s
  else
    let threadDate := dateOfMs t.created
    let s1 := { s with totalSessions := s.totalSessions + 1 }
    let s2 :=
      { s1 with
        firstTimestamp :=
          match s1.firstTimestamp with
          | none => some t.created
          | some ft => if t.created < ft then some t.created else some ft }
    let s3 := { s2 with dailyActivity := mapAdd s2.dailyActivity threadDate 1 }
    t.messages.foldl processMessage s3

/-- Embedding of `collectAmpUsageSummary`, over the stream of parsed thread
records. -/
def collectAmpUsageSummary (threads : List AmpThread) (year : Nat) : AmpUsageSummary :=
  threads.foldl (processThread year) emptySummary

/-! ### Calculator (`stats.ts`) data model -/

structure AmpModelStats where
  id : String
  name : String
  providerId : String
  count : ℚ
  percentage : ℚ
  credits : ℚ
deriving DecidableEq, Repr

structure AmpProviderStats where
  id : String
  name : String
  count : ℚ
  percentage : ℚ
deriving DecidableEq, Repr

structure AmpWeekdayActivity where
  counts : List ℚ
  mostActiveDay : Nat
  mostActiveDayName : String
  maxCount : ℚ
deriving DecidableEq, Repr

structure MostActiveDay where
  date : DateKey
  count : ℚ
  formattedDate : String
deriving DecidableEq, Repr

structure AmpCodeStats where
  year : Nat
  /-- Epoch milliseconds of the `Date` object. -/
  firstSessionDate : Int
  daysSinceFirstSession : Int
  totalSessions : Nat
  totalMessages : Nat
  totalProjects : Nat
  totalInputTokens : ℚ
  totalOutputTokens : ℚ
  totalTokens : ℚ
  totalCacheReadTokens : ℚ
  cacheHitRate : ℚ
  totalCredits : ℚ
  hasCredits : Bool
  topModels : List AmpModelStats
  topProviders : List AmpProviderStats
  maxStreak : Nat
  currentStreak : Nat
  maxStreakDays : List DateKey
  dailyActivity : List (DateKey × ℚ)
  mostActiveDay : Option MostActiveDay
  weekdayActivity : AmpWeekdayActivity
deriving DecidableEq, Repr

/-- Embedding of `resolveProviderId`. -/
def resolveProviderId (modelId : String) : String :=
  if strStarts modelId "claude" then "anthropic"
  else if strStarts modelId "gpt" || strStarts modelId "o1" || strStarts modelId "o3" then "openai"
  else if strStarts modelId "gemini" then "google"
  else if strHas modelId "mistral" || strHas modelId "mixtral" then "mistral"
  else if strHas modelId "llama" then "meta"
  else if strHas modelId "deepseek" then "deepseek"
  else "unknown"

def modelNames : List (String × String) :=
  [("claude-opus-4-5-20251101", "Opus 4.5"),
   ("claude-sonnet-4-5-20250929", "Sonnet 4.5"),
   ("claude-sonnet-4-20250514", "Sonnet 4"),
   ("claude-haiku-4-5-20251001", "Haiku 4.5"),
   ("claude-3-5-sonnet-20241022", "Sonnet 3.5"),
   ("claude-3-5-haiku-20241022", "Haiku 3.5"),
   ("claude-3-opus-20240229", "Opus 3"),
   ("claude-3-sonnet-20240229", "Sonnet 3"),
   ("claude-3-haiku-20240307", "Haiku 3"),
   ("gpt-4o", "GPT-4o"),
   ("gpt-4o-mini", "GPT-4o Mini"),
   ("gpt-4-turbo", "GPT-4 Turbo"),
   ("gpt-5", "GPT-5"),
   ("gpt-5.1", "GPT-5.1"),
   ("o1-preview", "o1 Preview"),
   ("o1-mini", "o1 Mini"),
   ("o3-mini", "o3 Mini"),
   ("gemini-2.0-flash", "Gemini 2.0 Flash"),
   ("gemini-3-flash-preview", "Gemini 3 Flash"),
   ("gemini-1.5-pro", "Gemini 1.5 Pro"),
   ("deepseek-chat", "DeepSeek Chat"),
   ("deepseek-coder", "DeepSeek Coder")]

/-- Association-list lookup (embedding of a JS object-literal table read). -/
def lookupList {ν : Type} : List (String × ν) → String → Option ν
  | [], _ => none
  | (k', v) :: rest, k => if k' = k then some v else lookupList rest k

/-- Embedding of `s.charAt(0).toUpperCase() + s.slice(1)`. -/
def capitalizeStr (s : String) : String :=
  match s.toList with
  | [] => ""
  | c :: rest => String.mk (c.toUpper :: rest)

/-- Embedding of `getModelDisplayName`.  Under the `startsWith("claude-")`
guard, `replace("claude-", "")` drops the 7-character head. -/
def getModelDisplayName (modelId : String) : String :=
  match lookupList modelNames modelId with
  | some n => n
  | none =>
      if strStarts modelId "claude-" then
        let parts := (String.mk (modelId.toList.drop 7)).splitOn "-"
        if 2 ≤ parts.length then
          capitalizeStr (parts.getD 0 "") ++ " " ++ parts.getD 1 ""
        else capitalizeStr modelId
      else capitalizeStr modelId

/-- Embedding of `getProviderDisplayName`. -/
def getProviderDisplayName (providerId : String) : String :=
  let providerNames : List (String × String) :=
    [("anthropic", "Anthropic"), ("openai", "OpenAI"), ("google", "Google"),
     ("mistral", "Mistral"), ("meta", "Meta"), ("deepseek", "DeepSeek"),
     ("unknown", "Other")]
  match lookupList providerNames providerId with
  | some n => n
  | none => providerId

/-! ### Streak detection (`calculateStreaks`, `countStreakBackwards`) -/

/-- Lexicographic order on date keys: the order in which the `YYYY-MM-DD`
strings sort (4-digit years, zero-padded months and days). -/
def dkLe (a b : DateKey) : Prop :=
  a.y < b.y ∨ (a.y = b.y ∧ (a.m < b.m ∨ (a.m = b.m ∧ a.d ≤ b.d)))

instance : DecidableRel dkLe := fun a b => by
  unfold dkLe; exact inferInstance

instance : IsTotal DateKey dkLe :=
  ⟨by intro a b; unfold dkLe; omega⟩

instance : IsTrans DateKey dkLe :=
  ⟨by intro a b c; unfold dkLe; omega⟩

/-- The sorted, year-filtered activity dates that the streak walk runs over:
`Array.from(dailyActivity.keys()).filter(d => d.startsWith(String(year))).sort()`. -/
def activeDatesOf (dailyActivity : List (DateKey × ℚ)) (year : Nat) : List DateKey :=
  List.insertionSort dkLe ((dailyActivity.map Prod.fst).filter (fun dk => dk.y = year))

/-- The mutable loop state of `calculateStreaks`. -/
structure StreakAcc where
  maxStreak : Nat
  tempStreak : Nat
  tempStreakStart : Nat
  maxStreakStart : Nat
  maxStreakEnd : Nat
deriving DecidableEq, Repr

/-- The `for (let i = 1; ...)` loop of `calculateStreaks`, transliterated with
`prev = activeDates[i-1]` carried along and `rest` the dates from index `i`
on.  `diffDays` is an exact day-number difference, as a date-only string
parses to UTC midnight and `Math.round` of an exact integer is the integer. -/
def streakGo (prev : DateKey) (rest : List DateKey) (i : Nat) (st : StreakAcc) : StreakAcc :=
  match rest with
  | [] => st
  | curr :: rest' =>
      let diffDays : Int := daysFromCivil curr - daysFromCivil prev
      let st' :=
        if diffDays = 1 then
          let t := st.tempStreak + 1
          if t > st.maxStreak then
            { maxStreak := t, tempStreak := t, tempStreakStart := st.tempStreakStart,
              maxStreakStart := st.tempStreakStart, maxStreakEnd := i }
          else { st with tempStreak := t }
        else { st with tempStreak := 1, tempStreakStart := i }
      streakGo curr rest' (i + 1) st'

/-- The backward walk of `countStreakBackwards`, on day numbers: each loop
iteration moves `checkDate` back exactly 24 h, which moves its calendar day
back exactly one.  The source loop terminates because the activity map is
finite; here the number of map entries bounds the number of consecutive
present days strictly below the start, so that fuel is never exhausted. -/
def countBackAux (dailyActivity : List (DateKey × ℚ)) : Nat → Int → Nat
  | 0, _ => 0
  | fuel + 1, dayN =>
      if mapHas dailyActivity (civilFromDays (dayN - 1)) then
        1 + countBackAux dailyActivity fuel (dayN - 1)
      else 0

/-- Embedding of `countStreakBackwards`, starting from the day number of the
start date. -/
def countStreakBackwards (dailyActivity : List (DateKey × ℚ)) (startDay : Int) : Nat :=
  1 + countBackAux dailyActivity dailyActivity.length startDay

/-- Embedding of `calculateStreaks`; `now` is the ambient clock value
(`new Date()` / `Date.now()`) read inside the source function.  Returns
`(maxStreak, currentStreak, maxStreakDays)`; the `maxStreakDays` set is the
slice `activeDates[maxStreakStart..maxStreakEnd]` in insertion order. -/
def calculateStreaks (dailyActivity : List (DateKey × ℚ)) (year : Nat) (now : Int) :
    Nat × Nat × List DateKey :=
  let activeDates := activeDatesOf dailyActivity year
  match activeDates with
  | [] => (0, 0, [])
  | d0 :: rest =>
      let st := streakGo d0 rest 1
        { maxStreak := 1, tempStreak := 1, tempStreakStart := 0,
          maxStreakStart := 0, maxStreakEnd := 0 }
      let maxStreakDays :=
        ((d0 :: rest).drop st.maxStreakStart).take (st.maxStreakEnd + 1 - st.maxStreakStart)
      let today := dateOfMs now
      let yesterday := dateOfMs (now - 86400000)
      let currentStreak :=
        if mapHas dailyActivity today then
          countStreakBackwards dailyActivity (msDay now)
        else if mapHas dailyActivity yesterday then
          countStreakBackwards dailyActivity (msDay (now - 86400000))
        else 0
      (st.maxStreak, currentStreak, maxStreakDays)

/-! ### Most active day, weekday distribution -/

def monthNamesShort : List String :=
  ["Jan", "Feb", "Mar", "Apr", "May", "Jun", "Jul", "Aug", "Sep", "Oct", "Nov", "Dec"]

/-- Embedding of `findMostActiveDay`.  The source's `maxDate = ""` sentinel is
`none` here (no real date key is the empty string).  The `formattedDate` is
`monthNames[month-1] + " " + day` for the in-range month/day keys the
collector produces. -/
def findMostActiveDay (dailyActivity : List (DateKey × ℚ)) : Option MostActiveDay :=
  if dailyActivity.length = 0 then none
  else
    let acc := dailyActivity.foldl
      (fun (acc : Option DateKey × ℚ) p =>
        if p.2 > acc.2 then (some p.1, p.2) else acc)
      (none, 0)
    match acc.1 with
    | none => none
    | some maxDate =>
        some { date := maxDate, count := acc.2,
               formattedDate := monthNamesShort.getD (maxDate.m - 1) "" ++ " "
                 ++ toString maxDate.d }

/-- The weekday-count accumulation loop of `calculateAmpStats` (a 7-slot
array, Sunday first). -/
def weekdayCountsOf (dailyActivity : List (DateKey × ℚ)) : List ℚ :=
  dailyActivity.foldl
    (fun wc p =>
      let weekday := getDayOfWeek p.1
      wc.set weekday (wc.getD weekday 0 + p.2))
    [0, 0, 0, 0, 0, 0, 0]

def WEEKDAY_NAMES_FULL : List String :=
  ["Sunday", "Monday", "Tuesday", "Wednesday", "Thursday", "Friday", "Saturday"]

/-- Embedding of `buildWeekdayActivity`. -/
def buildWeekdayActivity (counts : List ℚ) : AmpWeekdayActivity :=
  let acc := (List.range 7).foldl
    (fun (acc : Nat × ℚ) i =>
      if counts.getD i 0 > acc.2 then (i, counts.getD i 0) else acc)
    (0, 0)
  { counts := counts, mostActiveDay := acc.1,
    mostActiveDayName := WEEKDAY_NAMES_FULL.getD acc.1 "", maxCount := acc.2 }

/-! ### Model and provider ranking -/

/-- The stats row pushed for one model entry. -/
def modelRow (s : AmpUsageSummary) (p : String × ℚ) : AmpModelStats :=
  { id := p.1, name := getModelDisplayName p.1,
    providerId := resolveProviderId p.1, count := p.2,
    percentage := if s.totalTokens > 0 then p.2 / s.totalTokens * 100 else 0,
    credits := (mapGet s.modelCreditTotals p.1).getD 0 }

/-- One iteration of the model-stats building loop of `calculateAmpStats`:
skip a non-positive token total, otherwise push the model's stats row and add
its tokens to the provider counts. -/
def modelRankStep (s : AmpUsageSummary) (acc : List AmpModelStats × List (String × ℚ))
    (p : String × ℚ) : List AmpModelStats × List (String × ℚ) :=
  if p.2 ≤ 0 then acc
  else (acc.1 ++ [modelRow s p], mapAdd acc.2 (resolveProviderId p.1) p.2)

/-- The model-stats building loop of `calculateAmpStats`: walk the
`modelTokenTotals` entries in enumeration order, skip non-positive token
totals, and build both the `modelStats` array and the `providerCounts` map. -/
def modelRank (s : AmpUsageSummary) : List AmpModelStats × List (String × ℚ) :=
  s.modelTokenTotals.foldl (modelRankStep s) ([], [])

/-- The comparator `(a, b) => b.count - a.count` of the model sort: JS
`Array.prototype.sort` is stable and this comparator orders by descending
`count`, so it is the stable insertion sort with this total preorder. -/
def msSortLe (a b : AmpModelStats) : Prop := b.count ≤ a.count

instance : DecidableRel msSortLe := fun a b => by unfold msSortLe; exact inferInstance

instance : IsTotal AmpModelStats msSortLe :=
  ⟨by intro a b; unfold msSortLe; exact le_total _ _⟩

instance : IsTrans AmpModelStats msSortLe :=
  ⟨by intro a b c h1 h2; unfold msSortLe at h1 h2 ⊢; exact le_trans h2 h1⟩

/-- The comparator `(a, b) => b[1] - a[1]` of the provider sort. -/
def pairSortLe (a b : String × ℚ) : Prop := b.2 ≤ a.2

instance : DecidableRel pairSortLe := fun a b => by unfold pairSortLe; exact inferInstance

instance : IsTotal (String × ℚ) pairSortLe :=
  ⟨by intro a b; unfold pairSortLe; exact le_total _ _⟩

instance : IsTrans (String × ℚ) pairSortLe :=
  ⟨by intro a b c h1 h2; unfold pairSortLe at h1 h2 ⊢; exact le_trans h2 h1⟩

/-! ### The stats calculator -/

/-- Embedding of `calculateAmpStats`.  The source function takes only `year`,
fetches the summary itself (`collectAmpUsageSummary(year)`), and reads the
ambient clock (`new Date()`, `Date.now()`) for the current-streak walk, the
first-session fallback and `daysSinceFirstSession`; here the summary and the
ambient clock value `now` are explicit parameters, so that dependence on the
ambient time is visible as dependence on `now`. -/
def calculateAmpStats (usageSummary : AmpUsageSummary) (year : Nat) (now : Int) : AmpCodeStats :=
  let dailyActivity := usageSummary.dailyActivity
  let weekdayCounts := weekdayCountsOf dailyActivity
  let totalTokens := usageSummary.totalTokens
  let ranked := modelRank usageSummary
  let topModels := (List.insertionSort msSortLe ranked.1).take 3
  let topProviders := ((List.insertionSort pairSortLe ranked.2).take 3).map
    (fun p => { id := p.1, name := getProviderDisplayName p.1, count := p.2,
                percentage := if totalTokens > 0 then p.2 / totalTokens * 100 else 0
                : AmpProviderStats })
  let streaks := calculateStreaks dailyActivity year now
  let mostActiveDay := findMostActiveDay dailyActivity
  let weekdayActivity := buildWeekdayActivity weekdayCounts
  let cacheHitRate :=
    if usageSummary.totalCacheReadTokens > 0 then
      usageSummary.totalCacheReadTokens
        / (usageSummary.totalCacheReadTokens + usageSummary.totalInputTokens) * 100
    else 0
  let firstSessionDate := usageSummary.firstTimestamp.getD now
  let daysSinceFirstSession := Int.fdiv (now - firstSessionDate) msPerDay
  { year := year
    firstSessionDate := firstSessionDate
    daysSinceFirstSession := daysSinceFirstSession
    totalSessions := usageSummary.totalSessions
    totalMessages := usageSummary.totalMessages
    totalProjects := usageSummary.projects.length
    totalInputTokens := usageSummary.totalInputTokens
    totalOutputTokens := usageSummary.totalOutputTokens
    totalTokens := usageSummary.totalTokens
    totalCacheReadTokens := usageSummary.totalCacheReadTokens
    cacheHitRate := cacheHitRate
    totalCredits := usageSummary.totalCredits
    hasCredits := usageSummary.totalCredits > 0
    topModels := topModels
    topProviders := topProviders
    maxStreak := streaks.1
    currentStreak := streaks.2.1
    maxStreakDays := streaks.2.2
    dailyActivity := dailyActivity
    mostActiveDay := mostActiveDay
    weekdayActivity := weekdayActivity }

/-! ### Spec-side definitions, for refinement comparisons

These follow the wording of the specification, not the code, and are compared
with the code-side definitions in the theorems below. -/

/-- The streak walk as the spec words it: walk consecutive pairs of the sorted
year dates; a gap of exactly one calendar day extends the current run, any
other gap resets the run to a single date; track the longest run seen without
overwriting on equal length, and record the member dates of the winning run. -/
def specWalk (prev : DateKey) (rest : List DateKey) (cur best : Nat)
    (curDays bestDays : List DateKey) : Nat × List DateKey :=
  match rest with
  | [] => (best, bestDays)
  | c :: r =>
      if daysFromCivil c - daysFromCivil prev = 1 then
        if best < cur + 1 then specWalk c r (cur + 1) (cur + 1) (curDays ++ [c]) (curDays ++ [c])
        else specWalk c r (cur + 1) best (curDays ++ [c]) bestDays
      else specWalk c r 1 best [c] bestDays

/-- Spec-side max-streak detection: `(maxStreak, maxStreakDays)` per the
spec's words, with no activity in the year giving `(0, [])`. -/
def specStreak (dailyActivity : List (DateKey × ℚ)) (year : Nat) : Nat × List DateKey :=
  match activeDatesOf dailyActivity year with
  | [] => (0, [])
  | d0 :: rest => specWalk d0 rest 1 1 [d0] [d0]

/-- Spec-side current streak: if the calendar day of `now` has activity count
backward from it, else if the previous calendar day has activity count
backward from that, else 0 — with no reference to the requested year. -/
def specCurrentStreak (dailyActivity : List (DateKey × ℚ)) (now : Int) : Nat :=
  if mapHas dailyActivity (dateOfMs now) then
    countStreakBackwards dailyActivity (msDay now)
  else if mapHas dailyActivity (dateOfMs (now - 86400000)) then
    countStreakBackwards dailyActivity (msDay (now - 86400000))
  else 0

/-- Project-path derivation as claim C3 words it: the marker whose occurrence
is leftmost in the path wins, regardless of which marker it is. -/
def extractProjectPathLeftmost (uri : String) : Option String :=
  if strStarts uri "file://" then
    let path : List Char := uri.toList.drop 7
    let hits := projectIndicators.filterMap (fun ind => listIdxOf path ind.toList)
    match hits.min? with
    | some idx => some (String.mk (path.take idx))
    | none =>
        let parts := (String.mk path).splitOn "/"
        if 4 ≤ parts.length then some (String.intercalate "/" parts.dropLast)
        else none
  else none

/-! ### Predicates used in the statements -/

/-- Two dates are consecutive calendar days (the successor side second). -/
def dkConsec (a b : DateKey) : Prop := daysFromCivil b - daysFromCivil a = 1

/-- The needle occurs in the path at position `i`. -/
def occursAt (path needle : List Char) (i : Nat) : Prop :=
  listStarts (path.drop i) needle = true

/-- The per-message usage fields are non-negative. -/
def usageNonneg (u : AmpThreadUsage) : Prop :=
  0 ≤ u.inputTokens ∧ 0 ≤ u.outputTokens ∧ 0 ≤ u.cacheReadInputTokens.getD 0 ∧ 0 ≤ u.credits

/-- Every usage block in the input stream has non-negative fields. -/
def threadsNonneg (threads : List AmpThread) : Prop :=
  ∀ t ∈ threads, ∀ msg ∈ t.messages, ∀ u ∈ msg.usage, usageNonneg u

/-- The scalar token totals of a summary are non-negative. -/
def summaryNonneg (s : AmpUsageSummary) : Prop :=
  0 ≤ s.totalInputTokens ∧ 0 ≤ s.totalOutputTokens ∧ 0 ≤ s.totalCacheReadTokens ∧
    0 ≤ s.totalTokens ∧ 0 ≤ s.totalCredits

/-- The token-decomposition invariant of a summary. -/
def tokensInv (s : AmpUsageSummary) : Prop :=
  s.totalTokens = s.totalInputTokens + s.totalOutputTokens + s.totalCacheReadTokens

/-- Well-formedness that the collector establishes and the ranking relies on:
per-model token totals are non-negative and sum to at most `totalTokens`. -/
def wfSummary (s : AmpUsageSummary) : Prop :=
  (∀ p ∈ s.modelTokenTotals, 0 ≤ p.2) ∧
    (s.modelTokenTotals.map Prod.snd).sum ≤ s.totalTokens

/-! ### Concrete fixtures for scenarios, witnesses and counterexamples -/

/-- The daily-activity scenario of the spec: four active days, one gap. -/
def scenarioDaily : List (DateKey × ℚ) :=
  [(⟨2025, 1, 1⟩, 1), (⟨2025, 1, 2⟩, 1), (⟨2025, 1, 3⟩, 1), (⟨2025, 1, 5⟩, 1)]

/-- Two runs of equal length two: the first-seen run must win. -/
def scenarioTie : List (DateKey × ℚ) :=
  [(⟨2025, 1, 1⟩, 1), (⟨2025, 1, 2⟩, 1), (⟨2025, 1, 4⟩, 1), (⟨2025, 1, 5⟩, 1)]

/-- Epoch milliseconds of 2025-01-01 (day number 20089). -/
def jan1of2025Ms : Int := 20089 * 86400000

/-- Epoch milliseconds of 2024-12-31. -/
def lateDecemberMs : Int := 20088 * 86400000

/-- Activity on 2024-12-31 only. -/
def lateDecemberDaily : List (DateKey × ℚ) := [(⟨2024, 12, 31⟩, 1)]

/-- Epoch milliseconds of 2025-01-06. -/
def ambientT1 : Int := 20094 * 86400000

/-- Forty days later. -/
def ambientT2 : Int := ambientT1 + 40 * 86400000

/-- A summary with activity exactly on the calendar day of `ambientT1`. -/
def ambientSummary : AmpUsageSummary :=
  { emptySummary with dailyActivity := [(dateOfMs ambientT1, 1)], firstTimestamp := some ambientT1 }

/-- Summary with 50 cache-read and 50 input tokens. -/
def cacheSummary50 : AmpUsageSummary :=
  { emptySummary with totalCacheReadTokens := 50, totalInputTokens := 50 }

/-- Summary with model A at 700 tokens, model B at 300, total 1000. -/
def rankSummary : AmpUsageSummary :=
  { emptySummary with modelTokenTotals := [("modelA", 700), ("modelB", 300)], totalTokens := 1000 }

/-- One assistant usage block with all fields present. -/
def witUsage : AmpThreadUsage :=
  { model := "claude-test-1", inputTokens := 10, outputTokens := 5,
    cacheReadInputTokens := some 85, credits := 2 }

/-- A thread created on 2025-01-06 carrying one user and one assistant message. -/
def witThread : AmpThread :=
  { created := ambientT1,
    messages :=
      [{ role := Role.user, usage := none, fileMentionFiles := [] },
       { role := Role.assistant, usage := some witUsage, fileMentionFiles := [] }] }

/-- A thread created on 2024-12-31 (outside year 2025). -/
def decemberThread : AmpThread := { created := lateDecemberMs, messages := [] }

/-! ## Theorems -/

/-! ### C7: cache hit rate -/

/-- C7: for every summary, `cacheHitRate` equals
`cacheReadTokens / (cacheReadTokens + inputTokens) * 100` when
`cacheReadTokens > 0` and equals 0 otherwise, and the denominator is positive
whenever that division is evaluated, given non-negative input tokens. -/
theorem cacheHitRate_spec (s : AmpUsageSummary) (year : Nat) (now : Int) :
    (0 < s.totalCacheReadTokens →
      (calculateAmpStats s year now).cacheHitRate
          = s.totalCacheReadTokens / (s.totalCacheReadTokens + s.totalInputTokens) * 100
        ∧ (0 ≤ s.totalInputTokens → 0 < s.totalCacheReadTokens + s.totalInputTokens)) ∧
    (¬ 0 < s.totalCacheReadTokens → (calculateAmpStats s year now).cacheHitRate = 0) := by
  have h : (calculateAmpStats s year now).cacheHitRate
      = if s.totalCacheReadTokens > 0 then
          s.totalCacheReadTokens / (s.totalCacheReadTokens + s.totalInputTokens) * 100
        else 0 := rfl
  constructor
  · intro hpos
    rw [h, if_pos hpos]
    exact ⟨rfl, fun hi => add_pos_of_pos_of_nonneg hpos hi⟩
  · intro hneg
    rw [h, if_neg hneg]

/-- Witness for C7: the spec scenarios, 50/50 giving 50 and 0 giving 0. -/
theorem cacheHitRate_spec_witness :
    (calculateAmpStats cacheSummary50 2025 0).cacheHitRate = 50 ∧
    (calculateAmpStats emptySummary 2025 0).cacheHitRate = 0 := by
  constructor
  · rw [((cacheHitRate_spec cacheSummary50 2025 0).1 (by norm_num [cacheSummary50, emptySummary])).1]
    norm_num [cacheSummary50, emptySummary]
  · exact (cacheHitRate_spec emptySummary 2025 0).2 (by norm_num [emptySummary])

/-! ### C8: provider resolution -/

/-- C8: provider resolution applies the prefix/substring rules in source
order. -/
theorem resolveProviderId_spec (m : String) :
    (strStarts m "claude" = true → resolveProviderId m = "anthropic") ∧
    (strStarts m "claude" = false →
      (strStarts m "gpt" || strStarts m "o1" || strStarts m "o3") = true →
      resolveProviderId m = "openai") ∧
    (strStarts m "claude" = false →
      (strStarts m "gpt" || strStarts m "o1" || strStarts m "o3") = false →
      strStarts m "gemini" = true →
      resolveProviderId m = "google") ∧
    (strStarts m "claude" = false →
      (strStarts m "gpt" || strStarts m "o1" || strStarts m "o3") = false →
      strStarts m "gemini" = false →
      (strHas m "mistral" || strHas m "mixtral") = true →
      resolveProviderId m = "mistral") ∧
    (strStarts m "claude" = false →
      (strStarts m "gpt" || strStarts m "o1" || strStarts m "o3") = false →
      strStarts m "gemini" = false →
      (strHas m "mistral" || strHas m "mixtral") = false →
      strHas m "llama" = true →
      resolveProviderId m = "meta") ∧
    (strStarts m "claude" = false →
      (strStarts m "gpt" || strStarts m "o1" || strStarts m "o3") = false →
      strStarts m "gemini" = false →
      (strHas m "mistral" || strHas m "mixtral") = false →
      strHas m "llama" = false →
      strHas m "deepseek" = true →
      resolveProviderId m = "deepseek") ∧
    (strStarts m "claude" = false →
      (strStarts m "gpt" || strStarts m "o1" || strStarts m "o3") = false →
      strStarts m "gemini" = false →
      (strHas m "mistral" || strHas m "mixtral") = false →
      strHas m "llama" = false →
      strHas m "deepseek" = false →
      resolveProviderId m = "unknown") := by
  refine ⟨?_, ?_, ?_, ?_, ?_, ?_, ?_⟩ <;>
    · intros
      simp_all [resolveProviderId]

/-- Witness for C8: the spec scenarios, `gpt-4o` resolving to openai and
`mystery-llm` to unknown. -/
theorem resolveProviderId_spec_witness :
    resolveProviderId "gpt-4o" = "openai" ∧ resolveProviderId "mystery-llm" = "unknown" :=
  ⟨(resolveProviderId_spec "gpt-4o").2.1 (by decide) (by decide),
   (resolveProviderId_spec "mystery-llm").2.2.2.2.2.2
     (by decide) (by decide) (by decide) (by decide) (by decide) (by decide)⟩

/-! ### C1: determinism and ambient time -/

/-- The max-streak outputs of `calculateStreaks` do not depend on the clock
value. -/
theorem calculateStreaks_independent_of_now (da : List (DateKey × ℚ)) (year : Nat)
    (t1 t2 : Int) :
    (calculateStreaks da year t1).1 = (calculateStreaks da year t2).1 ∧
    (calculateStreaks da year t1).2.2 = (calculateStreaks da year t2).2.2 := by
  unfold calculateStreaks
  cases h : activeDatesOf da year <;> simp [h]

/-- C1 (amended): the calculator is deterministic in `(summary, year, now)`,
and every output field except `currentStreak`, `firstSessionDate` and
`daysSinceFirstSession` is independent of the ambient clock value. -/
theorem calculator_independent_of_now_except_time_fields
    (s : AmpUsageSummary) (year : Nat) (t1 t2 : Int) :
    (calculateAmpStats s year t1).year = (calculateAmpStats s year t2).year ∧
    (calculateAmpStats s year t1).totalSessions = (calculateAmpStats s year t2).totalSessions ∧
    (calculateAmpStats s year t1).totalMessages = (calculateAmpStats s year t2).totalMessages ∧
    (calculateAmpStats s year t1).totalProjects = (calculateAmpStats s year t2).totalProjects ∧
    (calculateAmpStats s year t1).totalInputTokens
      = (calculateAmpStats s year t2).totalInputTokens ∧
    (calculateAmpStats s year t1).totalOutputTokens
      = (calculateAmpStats s year t2).totalOutputTokens ∧
    (calculateAmpStats s year t1).totalTokens = (calculateAmpStats s year t2).totalTokens ∧
    (calculateAmpStats s year t1).totalCacheReadTokens
      = (calculateAmpStats s year t2).totalCacheReadTokens ∧
    (calculateAmpStats s year t1).cacheHitRate = (calculateAmpStats s year t2).cacheHitRate ∧
    (calculateAmpStats s year t1).totalCredits = (calculateAmpStats s year t2).totalCredits ∧
    (calculateAmpStats s year t1).hasCredits = (calculateAmpStats s year t2).hasCredits ∧
    (calculateAmpStats s year t1).topModels = (calculateAmpStats s year t2).topModels ∧
    (calculateAmpStats s year t1).topProviders = (calculateAmpStats s year t2).topProviders ∧
    (calculateAmpStats s year t1).maxStreak = (calculateAmpStats s year t2).maxStreak ∧
    (calculateAmpStats s year t1).maxStreakDays = (calculateAmpStats s year t2).maxStreakDays ∧
    (calculateAmpStats s year t1).dailyActivity = (calculateAmpStats s year t2).dailyActivity ∧
    (calculateAmpStats s year t1).mostActiveDay = (calculateAmpStats s year t2).mostActiveDay ∧
    (calculateAmpStats s year t1).weekdayActivity
      = (calculateAmpStats s year t2).weekdayActivity := by
  refine ⟨rfl, rfl, rfl, rfl, rfl, rfl, rfl, rfl, rfl, rfl, rfl, rfl, rfl, ?_, ?_, rfl, rfl, rfl⟩
  · exact (calculateStreaks_independent_of_now s.dailyActivity year t1 t2).1
  · exact (calculateStreaks_independent_of_now s.dailyActivity year t1 t2).2

/-- C1 counterexample: with the summary and year fixed, changing only the
ambient clock value read by the calculator changes the `currentStreak` output
field, so the ambient wall-clock time does influence the output. -/
theorem calculator_reads_ambient_clock_counterexample :
    (calculateAmpStats ambientSummary 2025 ambientT1).currentStreak = 1 ∧
    (calculateAmpStats ambientSummary 2025 ambientT2).currentStreak = 0 := by
  decide

/-! ### C4: token totals invariant -/

theorem processMessage_tokensInv (s : AmpUsageSummary) (msg : AmpMessage)
    (h : tokensInv s) : tokensInv (processMessage s msg) := by
  obtain ⟨role, usage, files⟩ := msg
  unfold tokensInv at h ⊢
  cases role <;> cases usage <;> simp [processMessage] <;> linarith

theorem foldl_processMessage_tokensInv (msgs : List AmpMessage) :
    ∀ s : AmpUsageSummary, tokensInv s → tokensInv (msgs.foldl processMessage s) := by
  induction msgs with
  | nil => exact fun s h => h
  | cons msg rest ih =>
      intro s h
      exact ih _ (processMessage_tokensInv s msg h)

theorem processThread_tokensInv (year : Nat) (t : AmpThread) (s : AmpUsageSummary)
    (h : tokensInv s) : tokensInv (processThread year s t) := by
  unfold processThread
  split
  · exact h
  · apply foldl_processMessage_tokensInv
    simpa [tokensInv] using h

theorem foldl_processThread_tokensInv (threads : List AmpThread) (year : Nat) :
    ∀ s : AmpUsageSummary, tokensInv s →
      tokensInv (threads.foldl (processThread year) s) := by
  induction threads with
  | nil => exact fun s h => h
  | cons t rest ih =>
      intro s h
      exact ih _ (processThread_tokensInv year t s h)

theorem processMessage_nonneg (s : AmpUsageSummary) (msg : AmpMessage)
    (h : summaryNonneg s) (hm : ∀ u ∈ msg.usage, usageNonneg u) :
    summaryNonneg (processMessage s msg) := by
  obtain ⟨h1, h2, h3, h4, h5⟩ := h
  obtain ⟨role, usage, files⟩ := msg
  cases role <;> cases usage
  case user.none => exact ⟨h1, h2, h3, h4, h5⟩
  case user.some u => exact ⟨h1, h2, h3, h4, h5⟩
  case assistant.none => exact ⟨h1, h2, h3, h4, h5⟩
  case assistant.some u =>
    obtain ⟨m1, m2, m3, m4⟩ := hm u (by simp)
    simp [processMessage, summaryNonneg]
    repeat' apply And.intro
    all_goals linarith

theorem foldl_processMessage_nonneg (msgs : List AmpMessage) :
    ∀ s : AmpUsageSummary, summaryNonneg s →
      (∀ msg ∈ msgs, ∀ u ∈ msg.usage, usageNonneg u) →
      summaryNonneg (msgs.foldl processMessage s) := by
  induction msgs with
  | nil => exact fun s h _ => h
  | cons msg rest ih =>
      intro s h hm
      exact ih _ (processMessage_nonneg s msg h (hm msg (List.mem_cons_self msg rest)))
        (fun m hmem => hm m (List.mem_cons_of_mem msg hmem))

theorem processThread_nonneg (year : Nat) (t : AmpThread) (s : AmpUsageSummary)
    (h : summaryNonneg s) (hm : ∀ msg ∈ t.messages, ∀ u ∈ msg.usage, usageNonneg u) :
    summaryNonneg (processThread year s t) := by
  unfold processThread
  split
  · exact h
  · apply foldl_processMessage_nonneg _ _ _ hm
    simpa [summaryNonneg] using h

theorem foldl_processThread_nonneg (threads : List AmpThread) (year : Nat) :
    ∀ s : AmpUsageSummary, summaryNonneg s → threadsNonneg threads →
      summaryNonneg (threads.foldl (processThread year) s) := by
  induction threads with
  | nil => exact fun s h _ => h
  | cons t rest ih =>
      intro s h hts
      exact ih _ (processThread_nonneg year t s h (hts t (List.mem_cons_self t rest)))
        (fun t' hmem => hts t' (List.mem_cons_of_mem t hmem))

/-- C4: the collector's aggregate summary satisfies
`totalTokens = totalInputTokens + totalOutputTokens + totalCacheReadTokens`
for every input stream, and all scalar totals are non-negative when the
per-entry usage fields are. -/
theorem collector_token_total_invariant (threads : List AmpThread) (year : Nat) :
    (collectAmpUsageSummary threads year).totalTokens
        = (collectAmpUsageSummary threads year).totalInputTokens
          + (collectAmpUsageSummary threads year).totalOutputTokens
          + (collectAmpUsageSummary threads year).totalCacheReadTokens ∧
    (threadsNonneg threads → summaryNonneg (collectAmpUsageSummary threads year)) := by
  constructor
  · exact foldl_processThread_tokensInv threads year emptySummary (by simp [tokensInv, emptySummary])
  · intro hts
    exact foldl_processThread_nonneg threads year emptySummary
      (by simp [summaryNonneg, emptySummary]) hts

/-- Witness for C4 at a concrete one-thread stream. -/
theorem collector_token_total_invariant_witness :
    (collectAmpUsageSummary [witThread] 2025).totalTokens
        = (collectAmpUsageSummary [witThread] 2025).totalInputTokens
          + (collectAmpUsageSummary [witThread] 2025).totalOutputTokens
          + (collectAmpUsageSummary [witThread] 2025).totalCacheReadTokens ∧
    summaryNonneg (collectAmpUsageSummary [witThread] 2025) :=
  ⟨(collector_token_total_invariant [witThread] 2025).1,
   (collector_token_total_invariant [witThread] 2025).2
     (by simp [threadsNonneg, witThread, witUsage, usageNonneg])⟩

/-! ### C9: year filter is a frame -/

theorem processThread_skip (year : Nat) (s : AmpUsageSummary) (t : AmpThread)
    (h : (dateOfMs t.created).y ≠ year) : processThread year s t = s := by
  simp [processThread, h]

theorem foldl_processThread_skip (year : Nat) (l : List AmpThread)
    (h : ∀ t ∈ l, (dateOfMs t.created).y ≠ year) :
    ∀ s : AmpUsageSummary, l.foldl (processThread year) s = s := by
  induction l with
  | nil => exact fun _ => rfl
  | cons t rest ih =>
      intro s
      rw [List.foldl_cons, processThread_skip year s t (h t (List.mem_cons_self t rest))]
      exact ih (fun t' hmem => h t' (List.mem_cons_of_mem t hmem)) s

/-- C9: a thread whose creation date does not fall in the requested year
leaves the summary unchanged, and a stream with no matching thread yields the
all-zero summary, from which the calculator reports zero sessions, no most
active day and a zero max streak. -/
theorem collector_year_frame :
    (∀ (pre post : List AmpThread) (t : AmpThread) (year : Nat),
      (dateOfMs t.created).y ≠ year →
      collectAmpUsageSummary (pre ++ t :: post) year = collectAmpUsageSummary (pre ++ post) year) ∧
    (∀ (threads : List AmpThread) (year : Nat) (now : Int),
      (∀ t ∈ threads, (dateOfMs t.created).y ≠ year) →
      collectAmpUsageSummary threads year = emptySummary ∧
      (calculateAmpStats (collectAmpUsageSummary threads year) year now).totalSessions = 0 ∧
      (calculateAmpStats (collectAmpUsageSummary threads year) year now).mostActiveDay = none ∧
      (calculateAmpStats (collectAmpUsageSummary threads year) year now).maxStreak = 0) := by
  constructor
  · intro pre post t year h
    simp only [collectAmpUsageSummary, List.foldl_append, List.foldl_cons,
      processThread_skip year _ t h]
  · intro threads year now h
    have hc : collectAmpUsageSummary threads year = emptySummary :=
      foldl_processThread_skip year threads h emptySummary
    rw [hc]
    exact ⟨rfl, rfl, rfl, rfl⟩

/-- Witness for C9: a stream holding only a thread of the previous year. -/
theorem collector_year_frame_witness :
    collectAmpUsageSummary [decemberThread] 2025 = emptySummary ∧
    (calculateAmpStats (collectAmpUsageSummary [decemberThread] 2025) 2025 0).totalSessions = 0 ∧
    (calculateAmpStats (collectAmpUsageSummary [decemberThread] 2025) 2025 0).mostActiveDay
      = none ∧
    (calculateAmpStats (collectAmpUsageSummary [decemberThread] 2025) 2025 0).maxStreak = 0 :=
  collector_year_frame.2 [decemberThread] 2025 0 (by decide)

/-! ### The streak walk: refinement against the spec wording -/

/-- The index-based loop state of the source refines the list-carrying spec
walk: under the loop invariants relating the state to slices of the full date
array, the final `maxStreak` and the final `maxStreakDays` slice agree with
the spec walk's best run and its member dates. -/
theorem streakGo_eq_specWalk (dates : List DateKey) (rest : List DateKey) :
    ∀ (prev : DateKey) (i : Nat) (st : StreakAcc) (cur best : Nat)
      (curD bestD : List DateKey),
      dates.drop i = rest →
      st.tempStreak = cur →
      st.maxStreak = best →
      st.tempStreakStart + cur = i →
      st.maxStreakStart + best = st.maxStreakEnd + 1 →
      st.maxStreakEnd < i →
      (dates.drop st.tempStreakStart).take cur = curD →
      (dates.drop st.maxStreakStart).take best = bestD →
      (streakGo prev rest i st).maxStreak = (specWalk prev rest cur best curD bestD).1 ∧
      (dates.drop (streakGo prev rest i st).maxStreakStart).take
          ((streakGo prev rest i st).maxStreakEnd + 1 - (streakGo prev rest i st).maxStreakStart)
        = (specWalk prev rest cur best curD bestD).2 := by
  induction rest with
  | nil =>
      intro prev i st cur best curD bestD h1 h3 h4 h5 h6 h7 h8 h9
      simp only [streakGo, specWalk]
      refine ⟨h4, ?_⟩
      have he : st.maxStreakEnd + 1 - st.maxStreakStart = best := by omega
      rw [he, h9]
  | cons curr rest' ih =>
      intro prev i st cur best curD bestD h1 h3 h4 h5 h6 h7 h8 h9
      have hgetI : dates[i]? = some curr := by
        have h := List.getElem?_drop dates i 0
        rw [h1] at h
        simpa using h.symm
      have hdrop1 : dates.drop (i + 1) = rest' := by
        have h := List.drop_drop 1 i dates
        rw [h1] at h
        simpa using h.symm
      have hslice : (dates.drop st.tempStreakStart).take (cur + 1) = curD ++ [curr] := by
        rw [List.take_succ, h8, List.getElem?_drop, h5, hgetI]
        rfl
      by_cases hd : daysFromCivil curr - daysFromCivil prev = 1
      · by_cases hgt : st.tempStreak + 1 > st.maxStreak
        · have hgt' : best < cur + 1 := by omega
          simp only [streakGo, specWalk, hd, hgt, hgt', if_true]
          exact ih curr (i + 1)
            { maxStreak := st.tempStreak + 1, tempStreak := st.tempStreak + 1,
              tempStreakStart := st.tempStreakStart, maxStreakStart := st.tempStreakStart,
              maxStreakEnd := i }
            (cur + 1) (cur + 1) (curD ++ [curr]) (curD ++ [curr])
            hdrop1
            (show st.tempStreak + 1 = cur + 1 by omega)
            (show st.tempStreak + 1 = cur + 1 by omega)
            (show st.tempStreakStart + (cur + 1) = i + 1 by omega)
            (show st.tempStreakStart + (cur + 1) = i + 1 by omega)
            (show i < i + 1 by omega)
            (show (dates.drop st.tempStreakStart).take (cur + 1) = curD ++ [curr] from hslice)
            (show (dates.drop st.tempStreakStart).take (cur + 1) = curD ++ [curr] from hslice)
        · have hgt' : ¬ best < cur + 1 := by omega
          simp only [streakGo, specWalk, hd, if_true, if_neg hgt, if_neg hgt']
          exact ih curr (i + 1) { st with tempStreak := st.tempStreak + 1 }
            (cur + 1) best (curD ++ [curr]) bestD
            hdrop1
            (show st.tempStreak + 1 = cur + 1 by omega)
            (show st.maxStreak = best from h4)
            (show st.tempStreakStart + (cur + 1) = i + 1 by omega)
            (show st.maxStreakStart + best = st.maxStreakEnd + 1 from h6)
            (show st.maxStreakEnd < i + 1 by omega)
            (show (dates.drop st.tempStreakStart).take (cur + 1) = curD ++ [curr] from hslice)
            (show (dates.drop st.maxStreakStart).take best = bestD from h9)
      · simp only [streakGo, specWalk, hd, if_false]
        exact ih curr (i + 1) { st with tempStreak := 1, tempStreakStart := i }
          1 best [curr] bestD
          hdrop1
          (show (1 : Nat) = 1 from rfl)
          (show st.maxStreak = best from h4)
          (show i + 1 = i + 1 from rfl)
          (show st.maxStreakStart + best = st.maxStreakEnd + 1 from h6)
          (show st.maxStreakEnd < i + 1 by omega)
          (show (dates.drop i).take 1 = [curr] by rw [h1]; rfl)
          (show (dates.drop st.maxStreakStart).take best = bestD from h9)

/-- The spec walk maintains: the best run length is the number of its member
dates, the member dates form a chain of consecutive calendar days, and the
best run is non-empty. -/
theorem specWalk_inv (rest : List DateKey) :
    ∀ (prev : DateKey) (cur best : Nat) (curD bestD : List DateKey),
      cur = curD.length → best = bestD.length →
      curD.getLast? = some prev →
      List.Chain' dkConsec curD → List.Chain' dkConsec bestD →
      1 ≤ best →
      (specWalk prev rest cur best curD bestD).1
          = (specWalk prev rest cur best curD bestD).2.length ∧
      List.Chain' dkConsec (specWalk prev rest cur best curD bestD).2 ∧
      1 ≤ (specWalk prev rest cur best curD bestD).1 := by
  induction rest with
  | nil =>
      intro prev cur best curD bestD hcl hbl hlast hcC hcB hbest
      exact ⟨hbl, hcB, hbest⟩
  | cons c r ih =>
      intro prev cur best curD bestD hcl hbl hlast hcC hcB hbest
      have hlast' : (curD ++ [c]).getLast? = some c := List.getLast?_concat curD
      simp only [specWalk]
      by_cases hd : daysFromCivil c - daysFromCivil prev = 1
      · have hcC' : List.Chain' dkConsec (curD ++ [c]) := by
          refine List.Chain'.append hcC (List.chain'_singleton c) ?_
          intro x hx y hy
          rw [hlast] at hx
          simp only [Option.mem_def, Option.some.injEq] at hx
          simp only [List.head?_cons, Option.mem_def, Option.some.injEq] at hy
          subst hx
          subst hy
          exact hd
        have hlen' : cur + 1 = (curD ++ [c]).length := by simp [hcl]
        rw [if_pos hd]
        by_cases hgt : best < cur + 1
        · rw [if_pos hgt]
          exact ih c (cur + 1) (cur + 1) (curD ++ [c]) (curD ++ [c]) hlen' hlen' hlast'
            hcC' hcC' (by omega)
        · rw [if_neg hgt]
          exact ih c (cur + 1) best (curD ++ [c]) bestD hlen' hbl hlast' hcC' hcB hbest
      · rw [if_neg hd]
        exact ih c 1 best [c] bestD (by simp) hbl (by simp) (List.chain'_singleton c)
          hcB hbest

/-- A chain of consecutive calendar days has no duplicate dates. -/
theorem chain_dkConsec_nodup (l : List DateKey) (h : List.Chain' dkConsec l) : l.Nodup := by
  have h' : List.Chain' (fun a b => daysFromCivil a < daysFromCivil b) l :=
    h.imp (fun a b hab => by unfold dkConsec at hab; omega)
  letI : IsTrans DateKey (fun a b => daysFromCivil a < daysFromCivil b) :=
    ⟨fun a b c h1 h2 => lt_trans h1 h2⟩
  have hp := List.chain'_iff_pairwise.mp h'
  exact hp.imp (fun hab => by
    intro he
    rw [he] at hab
    exact lt_irrefl _ hab)

/-- The sort step returns the empty date list exactly when the year filter
returns no dates. -/
theorem activeDatesOf_eq_nil_iff (da : List (DateKey × ℚ)) (year : Nat) :
    activeDatesOf da year = [] ↔ (da.map Prod.fst).filter (fun dk => dk.y = year) = [] := by
  have hp : List.Perm (activeDatesOf da year) ((da.map Prod.fst).filter (fun dk => dk.y = year)) :=
    List.perm_insertionSort dkLe _
  constructor
  · intro h
    rw [h] at hp
    exact (hp.symm).eq_nil
  · intro h
    rw [h] at hp
    exact hp.eq_nil

/-- The max-streak outputs of the source function equal the spec walk's. -/
theorem calculateStreaks_eq_spec (da : List (DateKey × ℚ)) (year : Nat) (now : Int) :
    (calculateStreaks da year now).1 = (specStreak da year).1 ∧
    (calculateStreaks da year now).2.2 = (specStreak da year).2 := by
  unfold calculateStreaks specStreak
  cases h : activeDatesOf da year with
  | nil => simp [h]
  | cons d0 rest =>
      simp only [h]
      have hmain := streakGo_eq_specWalk (d0 :: rest) rest d0 1
        { maxStreak := 1, tempStreak := 1, tempStreakStart := 0,
          maxStreakStart := 0, maxStreakEnd := 0 }
        1 1 [d0] [d0] rfl rfl rfl (by simp) (by simp) (by simp) rfl rfl
      exact hmain

/-! ### C2: max-streak detection refines the spec wording -/

/-- C2: the streak detection processes the year's activity dates sorted
ascending, and its `(maxStreak, maxStreakDays)` equal the spec walk (extend on
a gap of exactly one day, reset otherwise, first-seen longest run wins, member
dates recorded); a year with no activity yields streak 0 with no dates; the
spec's concrete scenario and a tie scenario evaluate as stated. -/
theorem maxStreak_refines_spec_walk :
    (∀ (da : List (DateKey × ℚ)) (year : Nat),
      List.Sorted dkLe (activeDatesOf da year) ∧
      List.Perm (activeDatesOf da year) ((da.map Prod.fst).filter (fun dk => dk.y = year))) ∧
    (∀ (da : List (DateKey × ℚ)) (year : Nat) (now : Int),
      (calculateStreaks da year now).1 = (specStreak da year).1 ∧
      (calculateStreaks da year now).2.2 = (specStreak da year).2) ∧
    (∀ (da : List (DateKey × ℚ)) (year : Nat) (now : Int),
      (da.map Prod.fst).filter (fun dk => dk.y = year) = [] →
      (calculateStreaks da year now).1 = 0 ∧ (calculateStreaks da year now).2.2 = []) ∧
    (calculateStreaks scenarioDaily 2025 0).1 = 3 ∧
    (calculateStreaks scenarioDaily 2025 0).2.2
      = [⟨2025, 1, 1⟩, ⟨2025, 1, 2⟩, ⟨2025, 1, 3⟩] ∧
    (calculateStreaks scenarioTie 2025 0).1 = 2 ∧
    (calculateStreaks scenarioTie 2025 0).2.2 = [⟨2025, 1, 1⟩, ⟨2025, 1, 2⟩] := by
  refine ⟨?_, calculateStreaks_eq_spec, ?_, by decide, by decide, by decide, by decide⟩
  · intro da year
    exact ⟨List.sorted_insertionSort dkLe _, List.perm_insertionSort dkLe _⟩
  · intro da year now h
    have hnil : activeDatesOf da year = [] := (activeDatesOf_eq_nil_iff da year).mpr h
    unfold calculateStreaks
    rw [hnil]
    exact ⟨rfl, rfl⟩

/-- Witness for C2: the empty-year branch applied at a concrete input. -/
theorem maxStreak_refines_spec_walk_witness :
    (calculateStreaks lateDecemberDaily 2025 0).1 = 0 ∧
    (calculateStreaks lateDecemberDaily 2025 0).2.2 = [] :=
  maxStreak_refines_spec_walk.2.2.1 lateDecemberDaily 2025 0 (by decide)

/-! ### C10: maxStreak equals the cardinality of maxStreakDays -/

/-- C10: the streak computation maintains `maxStreak = |maxStreakDays|`, with
`maxStreakDays` a duplicate-free run of consecutive dates; a year with no
active dates yields 0 and the empty set, and a year with activity yields a
streak of at least 1. -/
theorem streak_cardinality_invariant (da : List (DateKey × ℚ)) (year : Nat) (now : Int) :
    (calculateStreaks da year now).1 = (calculateStreaks da year now).2.2.length ∧
    (calculateStreaks da year now).2.2.Nodup ∧
    List.Chain' dkConsec (calculateStreaks da year now).2.2 ∧
    ((da.map Prod.fst).filter (fun dk => dk.y = year) = [] →
      (calculateStreaks da year now).1 = 0 ∧ (calculateStreaks da year now).2.2 = []) ∧
    ((da.map Prod.fst).filter (fun dk => dk.y = year) ≠ [] →
      1 ≤ (calculateStreaks da year now).1) := by
  obtain ⟨e1, e2⟩ := calculateStreaks_eq_spec da year now
  rw [e1, e2]
  cases h : activeDatesOf da year with
  | nil =>
      have hf : (da.map Prod.fst).filter (fun dk => dk.y = year) = [] :=
        (activeDatesOf_eq_nil_iff da year).mp h
      unfold specStreak
      rw [h]
      exact ⟨rfl, List.nodup_nil, List.chain'_nil, fun _ => ⟨rfl, rfl⟩,
        fun hne => absurd hf hne⟩
  | cons d0 rest =>
      have hf : ¬ (da.map Prod.fst).filter (fun dk => dk.y = year) = [] := by
        intro hc
        rw [(activeDatesOf_eq_nil_iff da year).mpr hc] at h
        exact List.noConfusion h
      have hinv := specWalk_inv rest d0 1 1 [d0] [d0] (by simp) (by simp) (by simp)
        (List.chain'_singleton d0) (List.chain'_singleton d0) le_rfl
      have hred : specStreak da year = specWalk d0 rest 1 1 [d0] [d0] := by
        unfold specStreak
        rw [h]
      rw [hred]
      exact ⟨hinv.1, chain_dkConsec_nodup _ hinv.2.1, hinv.2.1,
        fun hc => absurd hc hf, fun _ => hinv.2.2⟩

/-- Witness for C10 at the spec scenario. -/
theorem streak_cardinality_invariant_witness :
    (calculateStreaks scenarioDaily 2025 0).1 = (calculateStreaks scenarioDaily 2025 0).2.2.length ∧
    1 ≤ (calculateStreaks scenarioDaily 2025 0).1 :=
  ⟨(streak_cardinality_invariant scenarioDaily 2025 0).1,
   (streak_cardinality_invariant scenarioDaily 2025 0).2.2.2.2 (by decide)⟩

/-! ### C5: current streak -/

/-- C5 counterexample: activity on 2024-12-31 only, requested year 2025, with
the clock on 2024-12-31.  The day of `now` has activity, so the claim demands
a current streak of 1 independent of the year, but the code's early return on
an empty year filter forces 0. -/
theorem currentStreak_year_gate_counterexample :
    (calculateStreaks lateDecemberDaily 2025 lateDecemberMs).2.1 = 0 ∧
    mapHas lateDecemberDaily (dateOfMs lateDecemberMs) = true ∧
    specCurrentStreak lateDecemberDaily lateDecemberMs = 1 ∧
    (calculateStreaks lateDecemberDaily 2024 lateDecemberMs).2.1 = 1 := by
  decide

/-- C5 (amended): whenever the requested year has at least one active date,
`currentStreak` follows the backward-walk rule on the whole activity map
(dates outside the year contribute, and the requested year does not influence
the value); when the year has no active dates, `currentStreak` is 0 no matter
what `now` is. -/
theorem currentStreak_amended (da : List (DateKey × ℚ)) (year : Nat) (now : Int) :
    ((da.map Prod.fst).filter (fun dk => dk.y = year) ≠ [] →
      (calculateStreaks da year now).2.1 = specCurrentStreak da now) ∧
    ((da.map Prod.fst).filter (fun dk => dk.y = year) = [] →
      (calculateStreaks da year now).2.1 = 0) := by
  constructor
  · intro hne
    have h : activeDatesOf da year ≠ [] := by
      intro hc
      exact hne ((activeDatesOf_eq_nil_iff da year).mp hc)
    unfold calculateStreaks
    cases hh : activeDatesOf da year with
    | nil => exact absurd hh h
    | cons d0 rest =>
        simp only [hh]
        rfl
  · intro hf
    have h : activeDatesOf da year = [] := (activeDatesOf_eq_nil_iff da year).mpr hf
    unfold calculateStreaks
    rw [h]

/-- Witness for C5's amended theorem: activity on 2025-01-01 with the clock on
that day gives the backward-walk value. -/
theorem currentStreak_amended_witness :
    (calculateStreaks [(⟨2025, 1, 1⟩, 1)] 2025 jan1of2025Ms).2.1
      = specCurrentStreak [(⟨2025, 1, 1⟩, 1)] jan1of2025Ms :=
  (currentStreak_amended [(⟨2025, 1, 1⟩, 1)] 2025 jan1of2025Ms).1 (by decide)

/-! ### C3: project-path derivation -/

/-- A successful `indexOf` is the leftmost occurrence of the needle. -/
theorem listIdxOf_some (needle : List Char) :
    ∀ (hay : List Char) (i : Nat), listIdxOf hay needle = some i →
      occursAt hay needle i ∧ ∀ j < i, ¬ occursAt hay needle j := by
  intro hay
  induction hay with
  | nil =>
      intro i h
      unfold listIdxOf at h
      by_cases hn : needle = []
      · subst hn
        simp at h
        subst h
        exact ⟨rfl, by omega⟩
      · simp [hn] at h
  | cons c t ih =>
      intro i h
      unfold listIdxOf at h
      by_cases hs : listStarts (c :: t) needle = true
      · rw [if_pos hs] at h
        simp only [Option.some.injEq] at h
        subst h
        exact ⟨hs, by omega⟩
      · rw [if_neg hs] at h
        cases hio : listIdxOf t needle with
        | none => rw [hio] at h; simp at h
        | some j =>
            rw [hio] at h
            simp at h
            subst h
            obtain ⟨ho, hmin⟩ := ih j hio
            refine ⟨ho, ?_⟩
            intro k hk
            cases k with
            | zero => exact fun hc => hs hc
            | succ k' => exact fun hc => hmin k' (by omega) hc

/-- A failed `indexOf` means the needle occurs nowhere. -/
theorem listIdxOf_none (needle : List Char) :
    ∀ (hay : List Char), listIdxOf hay needle = none →
      ∀ j, ¬ occursAt hay needle j := by
  intro hay
  induction hay with
  | nil =>
      intro h j hc
      unfold listIdxOf at h
      by_cases hn : needle = []
      · rw [if_pos hn] at h
        exact Option.noConfusion h
      · unfold occursAt at hc
        rw [List.drop_nil] at hc
        cases needle with
        | nil => exact hn rfl
        | cons a as => simp [listStarts] at hc
  | cons c t ih =>
      intro h j hc
      unfold listIdxOf at h
      by_cases hs : listStarts (c :: t) needle = true
      · rw [if_pos hs] at h
        exact Option.noConfusion h
      · rw [if_neg hs] at h
        cases hio : listIdxOf t needle with
        | some j' => rw [hio] at h; simp at h
        | none =>
            cases j with
            | zero => exact hs hc
            | succ j' => exact ih hio j' hc

/-- A successful indicator search used the first indicator in list order that
occurs anywhere in the path, at its leftmost occurrence. -/
theorem findIndicator_some (path : List Char) :
    ∀ (inds : List String) (i : Nat), findIndicator path inds = some i →
      ∃ pre ind post, inds = pre ++ ind :: post ∧
        (∀ p ∈ pre, listIdxOf path p.toList = none) ∧
        listIdxOf path ind.toList = some i := by
  intro inds
  induction inds with
  | nil =>
      intro i h
      unfold findIndicator at h
      exact Option.noConfusion h
  | cons ind rest ih =>
      intro i h
      unfold findIndicator at h
      cases hio : listIdxOf path ind.toList with
      | some j =>
          rw [hio] at h
          simp only [Option.some.injEq] at h
          subst h
          exact ⟨[], ind, rest, rfl, by simp, hio⟩
      | none =>
          rw [hio] at h
          obtain ⟨pre, ind', post, heq, hpre, hind⟩ := ih i h
          refine ⟨ind :: pre, ind', post, by rw [heq]; rfl, ?_, hind⟩
          intro p hp
          rcases List.mem_cons.mp hp with hp | hp
          · subst hp; exact hio
          · exact hpre p hp

/-- A failed indicator search means no indicator occurs in the path. -/
theorem findIndicator_none (path : List Char) :
    ∀ (inds : List String), findIndicator path inds = none →
      ∀ ind ∈ inds, listIdxOf path ind.toList = none := by
  intro inds
  induction inds with
  | nil => intro _ ind hind; exact absurd hind (List.not_mem_nil ind)
  | cons ind0 rest ih =>
      intro h ind hind
      unfold findIndicator at h
      cases hio : listIdxOf path ind0.toList with
      | some j => rw [hio] at h; exact Option.noConfusion h
      | none =>
          rw [hio] at h
          rcases List.mem_cons.mp hind with hi | hi
          · subst hi; exact hio
          · exact ih h ind hi

/-- C3 counterexample: in `/a/lib/b/src/c.ts` the leftmost marker occurrence
is `/lib/` (index 2), but the code checks `/src/` first and so returns
`/a/lib/b`; the leftmost-occurrence rule of the claim would return `/a`. -/
theorem extractProjectPath_marker_order_counterexample :
    extractProjectPath "file:///a/lib/b/src/c.ts" = some "/a/lib/b" ∧
    extractProjectPathLeftmost "file:///a/lib/b/src/c.ts" = some "/a" ∧
    ("/a/lib/b" : String) ≠ "/a" := by
  decide

/-- C3 (amended): non-`file://` URIs derive no project; otherwise the path is
scanned for the markers in the fixed order `/src/`, `/lib/`, `/app/`,
`/components/`, `/pages/`, and the first marker in that order that occurs
anywhere wins, at its leftmost occurrence (so an earlier-listed marker beats a
leftmost one); with no marker the fallback keeps all segments but the last
when there are at least 4 segments and otherwise derives no project. -/
theorem extractProjectPath_marker_order (uri : String) :
    (strStarts uri "file://" = false → extractProjectPath uri = none) ∧
    (strStarts uri "file://" = true →
      (∀ i, findIndicator (uri.toList.drop 7) projectIndicators = some i →
        extractProjectPath uri = some (String.mk ((uri.toList.drop 7).take i)) ∧
        ∃ pre ind post, projectIndicators = pre ++ ind :: post ∧
          (∀ p ∈ pre, ∀ j, ¬ occursAt (uri.toList.drop 7) p.toList j) ∧
          occursAt (uri.toList.drop 7) ind.toList i ∧
          (∀ j < i, ¬ occursAt (uri.toList.drop 7) ind.toList j)) ∧
      (findIndicator (uri.toList.drop 7) projectIndicators = none →
        (∀ ind ∈ projectIndicators, ∀ j, ¬ occursAt (uri.toList.drop 7) ind.toList j) ∧
        extractProjectPath uri =
          (if 4 ≤ ((String.mk (uri.toList.drop 7)).splitOn "/").length then
            some (String.intercalate "/" ((String.mk (uri.toList.drop 7)).splitOn "/").dropLast)
          else none))) := by
  constructor
  · intro hns
    simp [extractProjectPath, hns]
  · intro hs
    constructor
    · intro i hfi
      constructor
      · simp only [extractProjectPath, hs, if_true, hfi]
      · obtain ⟨pre, ind, post, heq, hpre, hind⟩ :=
          findIndicator_some (uri.toList.drop 7) projectIndicators i hfi
        obtain ⟨ho, hmin⟩ := listIdxOf_some ind.toList (uri.toList.drop 7) i hind
        refine ⟨pre, ind, post, heq, ?_, ho, hmin⟩
        intro p hp j
        exact listIdxOf_none p.toList (uri.toList.drop 7) (hpre p hp) j
    · intro hfi
      constructor
      · intro ind hind j
        exact listIdxOf_none ind.toList (uri.toList.drop 7)
          (findIndicator_none (uri.toList.drop 7) projectIndicators hfi ind hind) j
      · simp only [extractProjectPath, hs, if_true, hfi]

/-- Witness for C3's amended theorem at the source's own doc-comment example. -/
theorem extractProjectPath_marker_order_witness :
    extractProjectPath "file:///Users/user/Projects/myproject/src/file.ts"
      = some "/Users/user/Projects/myproject" := by
  have h := ((extractProjectPath_marker_order
      "file:///Users/user/Projects/myproject/src/file.ts").2 (by decide)).1 30 (by decide)
  rw [h.1]
  decide

/-! ### C6: model and provider ranking -/

/-- Filtering commutes with ordered insertion when the predicate never holds
for elements the inserted one jumps over. -/
theorem orderedInsert_filter_aux {α : Type} (r : α → α → Prop) [DecidableRel r]
    (p : α → Bool) (a : α) (H : p a = true → ∀ b, ¬ r a b → p b = false) :
    ∀ M : List α, (M.orderedInsert r a).filter p
      = if p a then a :: M.filter p else M.filter p := by
  intro M
  induction M with
  | nil =>
      by_cases hpa : p a = true <;> simp [List.orderedInsert, List.filter, hpa]
  | cons b M ih =>
      by_cases hr : r a b
      · rw [List.orderedInsert, if_pos hr]
        by_cases hpa : p a = true <;> by_cases hpb : p b = true <;>
          simp [List.filter_cons, hpa, hpb]
      · rw [List.orderedInsert, if_neg hr]
        by_cases hpa : p a = true
        · have hpb : p b = false := H hpa b hr
          simp [List.filter_cons, hpb, ih, hpa]
        · simp [List.filter_cons, ih, hpa]

/-- Stability of the insertion sort, expressed through filters: the elements
satisfying a predicate that is constant on each comparator-tie class keep
their original relative order. -/
theorem insertionSort_filter {α : Type} (r : α → α → Prop) [DecidableRel r] (p : α → Bool)
    (H : ∀ a, p a = true → ∀ b, ¬ r a b → p b = false) :
    ∀ l : List α, (List.insertionSort r l).filter p = l.filter p := by
  intro l
  induction l with
  | nil => rfl
  | cons a l ih =>
      rw [List.insertionSort, orderedInsert_filter_aux r p a (H a)]
      by_cases hpa : p a = true <;> simp [List.filter_cons, hpa, ih]

theorem mapAdd_snd_sum {κ : Type} [DecidableEq κ] (m : List (κ × ℚ)) (k : κ) (x : ℚ) :
    ((mapAdd m k x).map Prod.snd).sum = (m.map Prod.snd).sum + x := by
  induction m with
  | nil => simp [mapAdd]
  | cons q m ih =>
      obtain ⟨k', v⟩ := q
      by_cases h : k' = k <;> simp [mapAdd, h, ih] <;> ring

theorem mapAdd_nonneg {κ : Type} [DecidableEq κ] (m : List (κ × ℚ)) (k : κ) (x : ℚ)
    (hm : ∀ q ∈ m, 0 ≤ q.2) (hx : 0 ≤ x) : ∀ q ∈ mapAdd m k x, 0 ≤ q.2 := by
  induction m with
  | nil =>
      intro q hq
      simp [mapAdd] at hq
      subst hq
      exact hx
  | cons r m ih =>
      obtain ⟨k', v⟩ := r
      intro q hq
      unfold mapAdd at hq
      by_cases h : k' = k
      · rw [if_pos h] at hq
        rcases List.mem_cons.mp hq with h1 | h1
        · subst h1
          exact add_nonneg (hm (k', v) (List.mem_cons_self _ _)) hx
        · exact hm q (List.mem_cons_of_mem _ h1)
      · rw [if_neg h] at hq
        rcases List.mem_cons.mp hq with h1 | h1
        · subst h1
          exact hm (k', v) (List.mem_cons_self _ _)
        · exact ih (fun q hq => hm q (List.mem_cons_of_mem _ hq)) q h1

/-- Every row the ranking loop emits comes from a strictly positive
`modelTokenTotals` entry, carrying that entry's token count and the standard
percentage. -/
theorem modelRank_mem_aux (s : AmpUsageSummary) (l : List (String × ℚ)) :
    ∀ (acc : List AmpModelStats × List (String × ℚ)) (ms : AmpModelStats),
      ms ∈ (l.foldl (modelRankStep s) acc).1 →
      ms ∈ acc.1 ∨ ∃ p ∈ l, 0 < p.2 ∧ ms = modelRow s p := by
  induction l with
  | nil => intro acc ms h; exact Or.inl h
  | cons p l ih =>
      intro acc ms h
      rw [List.foldl_cons] at h
      rcases ih _ ms h with hacc | ⟨q, hq, hq2, hq3⟩
      · unfold modelRankStep at hacc
        by_cases hp : p.2 ≤ 0
        · rw [if_pos hp] at hacc
          exact Or.inl hacc
        · rw [if_neg hp] at hacc
          rcases List.mem_append.mp hacc with h1 | h2
          · exact Or.inl h1
          · right
            exact ⟨p, List.mem_cons_self _ _, not_le.mp hp, List.mem_singleton.mp h2⟩
      · right
        exact ⟨q, List.mem_cons_of_mem _ hq, hq2, hq3⟩

/-- The provider-count map built by the ranking loop has non-negative values
summing to at most the sum of the model token totals. -/
theorem modelRank_pc_aux (s : AmpUsageSummary) (l : List (String × ℚ)) :
    ∀ (acc : List AmpModelStats × List (String × ℚ)),
      (∀ q ∈ acc.2, 0 ≤ q.2) → (∀ p ∈ l, 0 ≤ p.2) →
      (∀ q ∈ (l.foldl (modelRankStep s) acc).2, 0 ≤ q.2) ∧
      ((l.foldl (modelRankStep s) acc).2.map Prod.snd).sum
        ≤ (acc.2.map Prod.snd).sum + (l.map Prod.snd).sum := by
  induction l with
  | nil =>
      intro acc h1 _
      exact ⟨h1, by simp⟩
  | cons p l ih =>
      intro acc h1 h2
      rw [List.foldl_cons]
      have hp0 : 0 ≤ p.2 := h2 p (List.mem_cons_self _ _)
      have h2' : ∀ q ∈ l, 0 ≤ q.2 := fun q hq => h2 q (List.mem_cons_of_mem _ hq)
      by_cases hp : p.2 ≤ 0
      · have hstep : modelRankStep s acc p = acc := by
          unfold modelRankStep
          rw [if_pos hp]
        rw [hstep]
        obtain ⟨ha, hb⟩ := ih acc h1 h2'
        have hz : p.2 = 0 := le_antisymm hp hp0
        refine ⟨ha, ?_⟩
        simp only [List.map_cons, List.sum_cons, hz]
        linarith
      · have hstep2 : (modelRankStep s acc p).2 = mapAdd acc.2 (resolveProviderId p.1) p.2 := by
          unfold modelRankStep
          rw [if_neg hp]
        obtain ⟨ha, hb⟩ := ih (modelRankStep s acc p)
          (by rw [hstep2]; exact mapAdd_nonneg acc.2 _ p.2 h1 hp0) h2'
        refine ⟨ha, ?_⟩
        have hsum : ((modelRankStep s acc p).2.map Prod.snd).sum
            = (acc.2.map Prod.snd).sum + p.2 := by
          rw [hstep2]
          exact mapAdd_snd_sum acc.2 _ p.2
        rw [hsum] at hb
        simp only [List.map_cons, List.sum_cons]
        linarith

/-- C6: model ranking excludes non-positive token totals, computes
`tokens / totalTokens * 100` percentages (0 when the total is 0), sorts
descending by count with ties kept in enumeration order (stable sort), keeps
at most the top 3, and all model and provider percentages lie in `[0, 100]`,
all being 0 when `totalTokens = 0`.  The well-formedness hypothesis is what
the collector establishes: per-model totals are non-negative and sum to at
most `totalTokens`. -/
theorem model_ranking_spec (s : AmpUsageSummary) (year : Nat) (now : Int)
    (hwf : wfSummary s) :
    (∀ ms ∈ (calculateAmpStats s year now).topModels,
      0 < ms.count ∧
      ms.percentage = (if s.totalTokens > 0 then ms.count / s.totalTokens * 100 else 0) ∧
      0 ≤ ms.percentage ∧ ms.percentage ≤ 100) ∧
    (calculateAmpStats s year now).topModels.length ≤ 3 ∧
    List.Sorted msSortLe (calculateAmpStats s year now).topModels ∧
    (∀ c : ℚ, (List.insertionSort msSortLe (modelRank s).1).filter
        (fun m => decide (m.count = c))
      = (modelRank s).1.filter (fun m => decide (m.count = c))) ∧
    (∀ ps ∈ (calculateAmpStats s year now).topProviders,
      ps.percentage = (if s.totalTokens > 0 then ps.count / s.totalTokens * 100 else 0) ∧
      0 ≤ ps.percentage ∧ ps.percentage ≤ 100) ∧
    (calculateAmpStats s year now).topProviders.length ≤ 3 ∧
    (s.totalTokens = 0 →
      (∀ ms ∈ (calculateAmpStats s year now).topModels, ms.percentage = 0) ∧
      (∀ ps ∈ (calculateAmpStats s year now).topProviders, ps.percentage = 0)) := by
  obtain ⟨hvals, hsum⟩ := hwf
  have hvals' : ∀ x ∈ s.modelTokenTotals.map Prod.snd, 0 ≤ x := by
    intro x hx
    obtain ⟨q, hq, hqx⟩ := List.mem_map.mp hx
    rw [← hqx]
    exact hvals q hq
  have hT0 : 0 ≤ s.totalTokens := le_trans (List.sum_nonneg hvals') hsum
  have hTopM : (calculateAmpStats s year now).topModels
      = (List.insertionSort msSortLe (modelRank s).1).take 3 := rfl
  have hTopP : (calculateAmpStats s year now).topProviders
      = ((List.insertionSort pairSortLe (modelRank s).2).take 3).map
          (fun p => { id := p.1, name := getProviderDisplayName p.1, count := p.2,
                      percentage := if s.totalTokens > 0 then p.2 / s.totalTokens * 100 else 0
                      : AmpProviderStats }) := rfl
  have hMS : ∀ ms ∈ (calculateAmpStats s year now).topModels,
      ∃ p ∈ s.modelTokenTotals, 0 < p.2 ∧ ms = modelRow s p := by
    intro ms hms
    rw [hTopM] at hms
    have hms2 : ms ∈ List.insertionSort msSortLe (modelRank s).1 :=
      List.take_subset 3 _ hms
    have hms3 : ms ∈ (modelRank s).1 :=
      (List.perm_insertionSort msSortLe _).subset hms2
    rcases modelRank_mem_aux s s.modelTokenTotals ([], []) ms hms3 with h | h
    · exact absurd h (List.not_mem_nil ms)
    · exact h
  have hPC := modelRank_pc_aux s s.modelTokenTotals ([], [])
    (by intro q hq; exact absurd hq (List.not_mem_nil q)) hvals
  have hPCsum : ((modelRank s).2.map Prod.snd).sum ≤ s.totalTokens := by
    have := hPC.2
    simpa using le_trans this (by simpa using hsum)
  have hPS : ∀ ps ∈ (calculateAmpStats s year now).topProviders,
      ∃ q ∈ (modelRank s).2,
        ps = { id := q.1, name := getProviderDisplayName q.1, count := q.2,
               percentage := if s.totalTokens > 0 then q.2 / s.totalTokens * 100 else 0
               : AmpProviderStats } := by
    intro ps hps
    rw [hTopP] at hps
    obtain ⟨q, hq, hqe⟩ := List.mem_map.mp hps
    have hq2 : q ∈ List.insertionSort pairSortLe (modelRank s).2 :=
      List.take_subset 3 _ hq
    exact ⟨q, (List.perm_insertionSort pairSortLe _).subset hq2, hqe.symm⟩
  have hPctBound : ∀ v : ℚ, 0 ≤ v → v ≤ s.totalTokens →
      0 ≤ (if s.totalTokens > 0 then v / s.totalTokens * 100 else 0) ∧
      (if s.totalTokens > 0 then v / s.totalTokens * 100 else 0) ≤ 100 := by
    intro v hv hvT
    by_cases hT : s.totalTokens > 0
    · rw [if_pos hT]
      constructor
      · positivity
      · have h1 : v / s.totalTokens ≤ 1 := (div_le_one hT).mpr hvT
        calc v / s.totalTokens * 100 ≤ 1 * 100 :=
              mul_le_mul_of_nonneg_right h1 (by norm_num)
          _ = 100 := by norm_num
    · rw [if_neg hT]
      norm_num
  refine ⟨?_, ?_, ?_, ?_, ?_, ?_, ?_⟩
  · intro ms hms
    obtain ⟨p, hp, hp2, hpe⟩ := hMS ms hms
    subst hpe
    have hle : p.2 ≤ s.totalTokens := by
      have hmem : p.2 ∈ s.modelTokenTotals.map Prod.snd := List.mem_map_of_mem Prod.snd hp
      exact le_trans (List.single_le_sum hvals' p.2 hmem) hsum
    refine ⟨hp2, rfl, ?_⟩
    exact hPctBound p.2 (le_of_lt hp2) hle
  · rw [hTopM, List.length_take]
    exact Nat.min_le_left _ _
  · rw [hTopM]
    exact List.Pairwise.sublist (List.take_sublist 3 _)
      (List.sorted_insertionSort msSortLe _)
  · intro c
    apply insertionSort_filter
    intro a ha b hr
    have hac : a.count = c := of_decide_eq_true ha
    have hlt : a.count < b.count := not_le.mp (by simpa [msSortLe] using hr)
    apply decide_eq_false
    intro hbc
    rw [hbc, ← hac] at hlt
    exact lt_irrefl _ hlt
  · intro ps hps
    obtain ⟨q, hq, hqe⟩ := hPS ps hps
    subst hqe
    have hq0 : 0 ≤ q.2 := hPC.1 q hq
    have hqle : q.2 ≤ s.totalTokens := by
      have hmem : q.2 ∈ (modelRank s).2.map Prod.snd := List.mem_map_of_mem Prod.snd hq
      exact le_trans (List.single_le_sum (fun x hx => by
        obtain ⟨r, hr, hrx⟩ := List.mem_map.mp hx
        rw [← hrx]
        exact hPC.1 r hr) q.2 hmem) hPCsum
    exact ⟨rfl, hPctBound q.2 hq0 hqle⟩
  · rw [hTopP, List.length_map, List.length_take]
    exact Nat.min_le_left _ _
  · intro hTz
    constructor
    · intro ms hms
      obtain ⟨p, hp, hp2, hpe⟩ := hMS ms hms
      subst hpe
      show (if s.totalTokens > 0 then p.2 / s.totalTokens * 100 else 0) = 0
      rw [if_neg (by rw [hTz]; exact lt_irrefl 0)]
    · intro ps hps
      obtain ⟨q, hq, hqe⟩ := hPS ps hps
      subst hqe
      show (if s.totalTokens > 0 then q.2 / s.totalTokens * 100 else 0) = 0
      rw [if_neg (by rw [hTz]; exact lt_irrefl 0)]

/-- Witness for C6 at the spec scenario: models A (700 tokens) and B (300)
with a total of 1000 rank as A at 70 percent then B at 30. -/
theorem model_ranking_spec_witness :
    (calculateAmpStats rankSummary 2025 0).topModels.length ≤ 3 ∧
    List.Sorted msSortLe (calculateAmpStats rankSummary 2025 0).topModels ∧
    (calculateAmpStats rankSummary 2025 0).topModels.map
        (fun m => (m.id, m.count, m.percentage))
      = [("modelA", 700, 70), ("modelB", 300, 30)] := by
  have h := model_ranking_spec rankSummary 2025 0
    (by constructor
        · intro p hp
          simp [rankSummary, emptySummary] at hp
          rcases hp with hp | hp <;> rw [hp] <;> norm_num
        · simp [rankSummary, emptySummary]
          norm_num)
  refine ⟨h.2.1, h.2.2.1, ?_⟩
  norm_num [calculateAmpStats, rankSummary, emptySummary, modelRank, modelRankStep,
    modelRow, List.insertionSort, List.orderedInsert, msSortLe, getModelDisplayName,
    lookupList, modelNames, capitalizeStr, resolveProviderId, strStarts, listStarts,
    strHas, listIdxOf, mapGet]

end AmpWrapped
